import Mathlib

/-!
Verification of the droid-sdk streaming pipeline.

The definitions below are shallow embeddings of the TypeScript sources:
  src/cli/stream-parser.ts  (parseJsonLines, parseJsonLine, collectStreamEvents)
  src/cli/utils.ts          (waitForExit)
  src/cli/process.ts        (spawnDroid timeout handling)
  src/turn.ts               (buildTurnResultFromEvents)
  src/thread.ts             (Thread.runStreamed / createEventIterator)

JavaScript strings are modelled as lists of characters, byte streams as
lists of natural numbers, and asynchronous control flow as explicit data
describing the observable outcome of a run.
-/

set_option autoImplicit false

/-- JavaScript string, modelled as a list of characters. -/
abbrev Str := List Char

/-- Coerce a Lean string literal into the model representation. -/
def str (s : String) : Str := s.toList

/-- Whitespace test matching the characters removed by the JavaScript
String.prototype.trim (the ASCII whitespace range plus the common
Unicode space characters). -/
def isJsWs (c : Char) : Bool :=
  c = ' ' || c = '\t' || c = '\n' || c = '\r' ||
  c = Char.ofNat 0x0b || c = Char.ofNat 0x0c ||
  c = Char.ofNat 0xa0 || c = Char.ofNat 0xfeff ||
  c = Char.ofNat 0x2028 || c = Char.ofNat 0x2029

/-- Model of the JavaScript String.prototype.trim. -/
def jsTrim (s : Str) : Str :=
  ((s.dropWhile isJsWs).reverse.dropWhile isJsWs).reverse

/-- Splitting a text on the newline character, as performed by
buffer.split in parseJsonLines: the first component lists the complete
lines, the second is the trailing segment that is not yet terminated by
a newline (the new buffer). -/
def splitNl : Str → List Str × Str
  | [] => ([], [])
  | c :: rest =>
    if c = '\n' then
      ([] :: (splitNl rest).1, (splitNl rest).2)
    else
      match splitNl rest with
      | ([], b) => ([], c :: b)
      | (l :: ls, b) => ((c :: l) :: ls, b)

/-- A text without newline characters splits into no complete line and
itself as the pending buffer. -/
theorem splitNl_no_newline : ∀ (s : Str), '\n' ∉ s → splitNl s = ([], s)
  | [], _ => rfl
  | c :: rest, h => by
    have hc : ¬ c = '\n' := fun heq => h (heq ▸ List.mem_cons_self c rest)
    have hr : '\n' ∉ rest := fun hm => h (List.mem_cons_of_mem c hm)
    simp [splitNl, splitNl_no_newline rest hr, hc]

/-- The pending buffer produced by splitNl contains no newline. -/
theorem splitNl_snd_no_newline : ∀ (s : Str), '\n' ∉ (splitNl s).2
  | [] => by simp [splitNl]
  | c :: rest => by
    have hr := splitNl_snd_no_newline rest
    by_cases hc : c = '\n'
    · simp [splitNl, hc, hr]
    · rcases hA : splitNl rest with ⟨A1, A2⟩
      rw [hA] at hr
      cases A1 with
      | nil =>
        simp only [splitNl, if_neg hc, hA]
        intro hm
        rcases List.mem_cons.mp hm with h1 | h2
        · exact hc h1.symm
        · exact hr h2
      | cons l ls => simp [splitNl, hc, hA]; exact hr

/-- Composition law for splitNl: splitting a concatenation first splits
the front part, then continues from its pending buffer. -/
theorem splitNl_append : ∀ (a t : Str),
    splitNl (a ++ t) =
      ((splitNl a).1 ++ (splitNl ((splitNl a).2 ++ t)).1,
       (splitNl ((splitNl a).2 ++ t)).2)
  | [], t => by simp [splitNl]
  | c :: a, t => by
    have ih := splitNl_append a t
    rcases hA : splitNl a with ⟨A1, A2⟩
    rw [hA] at ih
    rcases hB : splitNl (A2 ++ t) with ⟨B1, B2⟩
    rw [hB] at ih
    by_cases hc : c = '\n'
    · subst hc
      show splitNl ('\n' :: (a ++ t)) = _
      simp [splitNl, ih, hA, hB]
    · cases A1 with
      | nil =>
        simp only [List.nil_append] at ih
        cases B1 with
        | nil =>
          have h1 : splitNl (c :: a) = ([], c :: A2) := by
            simp [splitNl, hA, hc]
          have h2 : splitNl (c :: (A2 ++ t)) = ([], c :: B2) := by
            simp [splitNl, hB, hc]
          have h3 : splitNl (c :: (a ++ t)) = ([], c :: B2) := by
            simp [splitNl, ih, hc]
          show splitNl (c :: (a ++ t)) = _
          rw [h1]
          simp only [List.cons_append, List.nil_append]
          rw [h2, h3]
        | cons l ls =>
          have h1 : splitNl (c :: a) = ([], c :: A2) := by
            simp [splitNl, hA, hc]
          have h2 : splitNl (c :: (A2 ++ t)) = ((c :: l) :: ls, B2) := by
            simp [splitNl, hB, hc]
          have h3 : splitNl (c :: (a ++ t)) = ((c :: l) :: ls, B2) := by
            simp [splitNl, ih, hc]
          show splitNl (c :: (a ++ t)) = _
          rw [h1]
          simp only [List.cons_append, List.nil_append]
          rw [h2, h3]
      | cons l ls =>
        have h1 : splitNl (c :: a) = ((c :: l) :: ls, A2) := by
          simp [splitNl, hA, hc]
        have h3 : splitNl (c :: (a ++ t)) = ((c :: l) :: (ls ++ B1), B2) := by
          simp only [List.cons_append] at ih
          simp only [splitNl, if_neg hc, ih]
        show splitNl (c :: (a ++ t)) = _
        rw [h3, h1, hB]
        simp

/-- Unicode replacement character emitted for invalid byte sequences. -/
def replacementChar : Char := Char.ofNat 0xfffd

/-- Number of bytes of the UTF-8 sequence led by the byte b; a stray
continuation byte or an invalid leading byte counts as a one-byte
sequence that decodes to the replacement character. -/
def byteNeed (b : Nat) : Nat :=
  if b < 0xc0 then 1
  else if b < 0xe0 then 2
  else if b < 0xf0 then 3
  else if b < 0xf8 then 4
  else 1

/-- Assemble a character from one complete UTF-8 sequence. -/
def seqChar : List Nat → Char
  | [b] => if b < 0x80 then Char.ofNat b else replacementChar
  | [b1, b2] => Char.ofNat ((b1 % 32) * 64 + b2 % 64)
  | [b1, b2, b3] => Char.ofNat ((b1 % 16) * 4096 + (b2 % 64) * 64 + b3 % 64)
  | [b1, b2, b3, b4] =>
    Char.ofNat ((b1 % 8) * 262144 + (b2 % 64) * 4096 + (b3 % 64) * 64 + b4 % 64)
  | _ => replacementChar

/-- Fuelled incremental UTF-8 decoding; the fuel only serves structural
recursion and any fuel of at least the length of the input behaves the
same (decodeLoopF_fuel below). -/
def decodeLoopF : Nat → List Nat → List Char × List Nat
  | _, [] => ([], [])
  | 0, bs => ([], bs)
  | fuel + 1, b :: rest =>
    if rest.length + 1 < byteNeed b then
      ([], b :: rest)
    else
      (seqChar ((b :: rest).take (byteNeed b)) ::
         (decodeLoopF fuel ((b :: rest).drop (byteNeed b))).1,
       (decodeLoopF fuel ((b :: rest).drop (byteNeed b))).2)

/-- Incremental UTF-8 decoding, modelling the TextDecoder used by
parseJsonLines with the stream option set: consume as many complete
sequences as possible and return the decoded characters together with
the trailing incomplete sequence, which the decoder keeps buffered for
the next chunk. Invalid leading bytes decode to the replacement
character one byte at a time; continuation byte validation inside a
sequence is elided since every stream this development evaluates is
well formed. -/
def decodeLoop (bs : List Nat) : List Char × List Nat :=
  decodeLoopF bs.length bs

theorem byteNeed_pos (b : Nat) : 1 ≤ byteNeed b := by
  unfold byteNeed
  repeat' split
  all_goals omega

theorem decodeLoopF_fuel : ∀ (n m : Nat) (bs : List Nat),
    bs.length ≤ n → bs.length ≤ m → decodeLoopF n bs = decodeLoopF m bs := by
  intro n
  induction n with
  | zero =>
    intro m bs hn _
    have : bs = [] := List.eq_nil_of_length_eq_zero (Nat.le_zero.mp hn)
    subst this
    cases m <;> rfl
  | succ n ih =>
    intro m bs hn hm
    cases bs with
    | nil => cases m <;> rfl
    | cons b rest =>
      have hm1 : 1 ≤ m := by simp at hm; omega
      obtain ⟨m', rfl⟩ : ∃ m', m = m' + 1 := ⟨m - 1, by omega⟩
      simp only [decodeLoopF]
      have h1 := byteNeed_pos b
      by_cases hcond : rest.length + 1 < byteNeed b
      · simp [hcond]
      · have hlen : ((b :: rest).drop (byteNeed b)).length ≤ n := by
          simp only [List.length_drop, List.length_cons]
          simp only [List.length_cons] at hn
          omega
        have hlen' : ((b :: rest).drop (byteNeed b)).length ≤ m' := by
          simp only [List.length_drop, List.length_cons]
          simp only [List.length_cons] at hm
          omega
        simp [hcond, ih m' _ hlen hlen']

/-- One-step unfolding of decodeLoop. -/
theorem decodeLoop_cons (b : Nat) (rest : List Nat) :
    decodeLoop (b :: rest) =
      (if rest.length + 1 < byteNeed b then
        ([], b :: rest)
      else
        (seqChar ((b :: rest).take (byteNeed b)) ::
           (decodeLoop ((b :: rest).drop (byteNeed b))).1,
         (decodeLoop ((b :: rest).drop (byteNeed b))).2)) := by
  show decodeLoopF (rest.length + 1) (b :: rest) = _
  simp only [decodeLoopF]
  by_cases hcond : rest.length + 1 < byteNeed b
  · simp [hcond]
  · have h1 := byteNeed_pos b
    have hlen : ((b :: rest).drop (byteNeed b)).length ≤ rest.length := by
      simp only [List.length_drop, List.length_cons]
      omega
    have heq : decodeLoopF rest.length ((b :: rest).drop (byteNeed b)) =
        decodeLoop ((b :: rest).drop (byteNeed b)) :=
      decodeLoopF_fuel _ _ _ hlen (le_refl _)
    simp [hcond, heq]

theorem decodeLoop_nil : decodeLoop [] = ([], []) := rfl

/-- Composition law for streaming UTF-8 decoding: decoding a
concatenation first decodes the front chunk, then resumes from its
pending bytes. -/
theorem decodeLoop_append : ∀ (n : Nat) (a t : List Nat), a.length ≤ n →
    decodeLoop (a ++ t) =
      ((decodeLoop a).1 ++ (decodeLoop ((decodeLoop a).2 ++ t)).1,
       (decodeLoop ((decodeLoop a).2 ++ t)).2) := by
  intro n
  induction n with
  | zero =>
    intro a t ha
    have : a = [] := List.eq_nil_of_length_eq_zero (Nat.le_zero.mp ha)
    subst this
    simp [decodeLoop_nil]
  | succ n ih =>
    intro a t ha
    cases a with
    | nil => simp [decodeLoop_nil]
    | cons b rest =>
      simp only [List.length_cons] at ha
      by_cases hcond : rest.length + 1 < byteNeed b
      · have hpend : decodeLoop (b :: rest) = ([], b :: rest) := by
          rw [decodeLoop_cons, if_pos hcond]
        rw [hpend]
        simp
      · have h1 := byteNeed_pos b
        have hns : ¬ (rest ++ t).length + 1 < byteNeed b := by
          simp only [List.length_append]
          omega
        have hfull : decodeLoop (b :: rest) =
            (seqChar ((b :: rest).take (byteNeed b)) ::
               (decodeLoop ((b :: rest).drop (byteNeed b))).1,
             (decodeLoop ((b :: rest).drop (byteNeed b))).2) := by
          rw [decodeLoop_cons, if_neg hcond]
        have htake : ((b :: rest) ++ t).take (byteNeed b) = (b :: rest).take (byteNeed b) :=
          List.take_append_of_le_length (by simp; omega)
        have hdrop : ((b :: rest) ++ t).drop (byteNeed b) =
            (b :: rest).drop (byteNeed b) ++ t :=
          List.drop_append_of_le_length (by simp; omega)
        have hlhs : decodeLoop (b :: (rest ++ t)) =
            (seqChar ((b :: rest).take (byteNeed b)) ::
               (decodeLoop ((b :: rest).drop (byteNeed b) ++ t)).1,
             (decodeLoop ((b :: rest).drop (byteNeed b) ++ t)).2) := by
          rw [decodeLoop_cons, if_neg (by simpa using hns)]
          rw [show (b :: (rest ++ t)) = (b :: rest) ++ t from rfl] at *
          rw [htake, hdrop]
        have hlen : ((b :: rest).drop (byteNeed b)).length ≤ n := by
          simp only [List.length_drop, List.length_cons]
          omega
        have ihd := ih ((b :: rest).drop (byteNeed b)) t hlen
        show decodeLoop ((b :: rest) ++ t) = _
        rw [show (b :: rest) ++ t = b :: (rest ++ t) from rfl, hlhs, hfull, ihd]
        simp

/-- The pending bytes left by the decoder are themselves stuck: feeding
them alone produces no character and leaves them pending again. -/
theorem decodeLoop_pending_stuck : ∀ (n : Nat) (x : List Nat), x.length ≤ n →
    decodeLoop ((decodeLoop x).2) = ([], (decodeLoop x).2) := by
  intro n
  induction n with
  | zero =>
    intro x hx
    have : x = [] := List.eq_nil_of_length_eq_zero (Nat.le_zero.mp hx)
    subst this
    simp [decodeLoop_nil]
  | succ n ih =>
    intro x hx
    cases x with
    | nil => simp [decodeLoop_nil]
    | cons b rest =>
      simp only [List.length_cons] at hx
      by_cases hcond : rest.length + 1 < byteNeed b
      · have hpend : decodeLoop (b :: rest) = ([], b :: rest) := by
          rw [decodeLoop_cons, if_pos hcond]
        rw [hpend]
        exact hpend
      · have h1 := byteNeed_pos b
        have hfull : decodeLoop (b :: rest) =
            (seqChar ((b :: rest).take (byteNeed b)) ::
               (decodeLoop ((b :: rest).drop (byteNeed b))).1,
             (decodeLoop ((b :: rest).drop (byteNeed b))).2) := by
          rw [decodeLoop_cons, if_neg hcond]
        have hlen : ((b :: rest).drop (byteNeed b)).length ≤ n := by
          simp only [List.length_drop, List.length_cons]
          omega
        rw [hfull]
        exact ih _ hlen

/-- Keep the trimmed, nonempty lines: the generator body of
parseJsonLines trims each complete line and skips blank ones. -/
def keepRecords (ls : List Str) : List Str :=
  ls.filterMap (fun l => if jsTrim l = [] then none else some (jsTrim l))

/-- End-of-stream flush of parseJsonLines: the trimmed buffer is kept
as a final record when it is nonempty. -/
def flushBuffer (buf : Str) : List Str :=
  if jsTrim buf = [] then [] else [jsTrim buf]

/-- Records obtained from a complete text delivered in one piece:
trimmed nonempty complete lines followed by the flushed buffer. -/
def recordsOf (s : Str) : List Str :=
  keepRecords (splitNl s).1 ++ flushBuffer (splitNl s).2

theorem keepRecords_append (a b : List Str) :
    keepRecords (a ++ b) = keepRecords a ++ keepRecords b :=
  List.filterMap_append a b _

/-- Peeling one decoded block off the front of the record stream. -/
theorem recordsOf_append_view (x T : Str) :
    recordsOf (x ++ T) =
      keepRecords (splitNl x).1 ++ recordsOf ((splitNl x).2 ++ T) := by
  unfold recordsOf
  rw [splitNl_append x T, keepRecords_append]
  simp [List.append_assoc]

/-- The chunk loop of parseJsonLines, carrying the two pieces of state
of the source while loop: the pending bytes buffered inside the text
decoder and the line buffer. Each chunk is decoded with the stream
option, appended to the buffer, split on newlines, and every complete
trimmed nonempty line becomes a record; at end of stream the buffer is
flushed (the pending decoder bytes are dropped, as the source never
issues a final decode call). -/
def parseChunksLoop : List Nat → Str → List (List Nat) → List Str
  | _, buf, [] => flushBuffer buf
  | pend, buf, chunk :: chunks =>
    keepRecords (splitNl (buf ++ (decodeLoop (pend ++ chunk)).1)).1 ++
      parseChunksLoop (decodeLoop (pend ++ chunk)).2
        (splitNl (buf ++ (decodeLoop (pend ++ chunk)).1)).2 chunks

/-- Records produced by parseJsonLines from a chunked byte stream. -/
def parseJsonLinesRecords (chunks : List (List Nat)) : List Str :=
  parseChunksLoop [] [] chunks

theorem parseChunksLoop_eq : ∀ (chunks : List (List Nat)) (pend : List Nat) (buf : Str),
    decodeLoop pend = ([], pend) → '\n' ∉ buf →
    parseChunksLoop pend buf chunks =
      recordsOf (buf ++ (decodeLoop (pend ++ chunks.flatten)).1)
  | [], pend, buf => by
    intro hpend hbuf
    simp only [parseChunksLoop, List.flatten_nil, List.append_nil, hpend]
    unfold recordsOf
    rw [splitNl_no_newline buf hbuf]
    simp [keepRecords]
  | chunk :: chunks, pend, buf => by
    intro hpend hbuf
    have hstuck : decodeLoop ((decodeLoop (pend ++ chunk)).2) =
        ([], (decodeLoop (pend ++ chunk)).2) :=
      decodeLoop_pending_stuck (pend ++ chunk).length (pend ++ chunk) (le_refl _)
    have hbuf2 : '\n' ∉ (splitNl (buf ++ (decodeLoop (pend ++ chunk)).1)).2 :=
      splitNl_snd_no_newline _
    have ih := parseChunksLoop_eq chunks (decodeLoop (pend ++ chunk)).2
      (splitNl (buf ++ (decodeLoop (pend ++ chunk)).1)).2 hstuck hbuf2
    simp only [parseChunksLoop, ih, List.flatten_cons]
    have hassoc : pend ++ (chunk ++ chunks.flatten) = (pend ++ chunk) ++ chunks.flatten := by
      simp [List.append_assoc]
    rw [hassoc, decodeLoop_append (pend ++ chunk).length (pend ++ chunk) chunks.flatten (le_refl _)]
    rw [show buf ++ ((decodeLoop (pend ++ chunk)).1 ++
          (decodeLoop ((decodeLoop (pend ++ chunk)).2 ++ chunks.flatten)).1) =
        (buf ++ (decodeLoop (pend ++ chunk)).1) ++
          (decodeLoop ((decodeLoop (pend ++ chunk)).2 ++ chunks.flatten)).1 from by
      simp [List.append_assoc]]
    rw [recordsOf_append_view (buf ++ (decodeLoop (pend ++ chunk)).1)
      ((decodeLoop ((decodeLoop (pend ++ chunk)).2 ++ chunks.flatten)).1)]

/-- parseJsonLines depends only on the concatenation of the chunks. -/
theorem parseJsonLinesRecords_eq (chunks : List (List Nat)) :
    parseJsonLinesRecords chunks = recordsOf (decodeLoop chunks.flatten).1 := by
  have h := parseChunksLoop_eq chunks [] [] rfl (by simp)
  simpa [parseJsonLinesRecords] using h

/-- A well formed wire record: nonempty, already trimmed, and free of
newline characters, so that it occupies exactly one line. -/
def goodRecord (r : Str) : Prop :=
  r ≠ [] ∧ jsTrim r = r ∧ '\n' ∉ r

instance (r : Str) : Decidable (goodRecord r) := by
  unfold goodRecord
  infer_instance

/-- Newline-delimited wire encoding of a list of records, with no
trailing newline. -/
def joinNl : List Str → Str
  | [] => []
  | [r] => r
  | r :: rs => r ++ '\n' :: joinNl rs

theorem splitNl_line_cons : ∀ (r : Str), '\n' ∉ r → ∀ (T : Str),
    splitNl (r ++ '\n' :: T) = (r :: (splitNl T).1, (splitNl T).2)
  | [], _, T => by simp [splitNl]
  | c :: r, h, T => by
    have hc : ¬ c = '\n' := fun heq => h (heq ▸ List.mem_cons_self c r)
    have hr : '\n' ∉ r := fun hm => h (List.mem_cons_of_mem c hm)
    have ih := splitNl_line_cons r hr T
    simp [splitNl, ih, hc]

/-- Decoding a text that is the newline join of well formed records
recovers exactly those records. -/
theorem recordsOf_joinNl : ∀ (rs : List Str), (∀ r ∈ rs, goodRecord r) →
    recordsOf (joinNl rs) = rs
  | [], _ => by simp [recordsOf, joinNl, splitNl, keepRecords, flushBuffer, jsTrim]
  | [r], h => by
    obtain ⟨hne, htrim, hnl⟩ := h r (List.mem_singleton_self r)
    simp only [joinNl, recordsOf, splitNl_no_newline r hnl]
    simp [keepRecords, flushBuffer, htrim, hne]
  | r :: r2 :: rs, h => by
    obtain ⟨hne, htrim, hnl⟩ := h r (List.mem_cons_self r (r2 :: rs))
    have htail : ∀ x ∈ r2 :: rs, goodRecord x :=
      fun x hx => h x (List.mem_cons_of_mem r hx)
    have ih := recordsOf_joinNl (r2 :: rs) htail
    simp only [joinNl, recordsOf, splitNl_line_cons r hnl (joinNl (r2 :: rs))]
    simp only [recordsOf] at ih
    simp [keepRecords, flushBuffer, htrim, hne] at ih ⊢
    exact ih

/-- A trailing newline does not change the records of a text. -/
theorem recordsOf_trailing_newline (s : Str) :
    recordsOf (s ++ ['\n']) = recordsOf s := by
  have h2 := splitNl_snd_no_newline s
  have hsp : splitNl ((splitNl s).2 ++ ['\n']) = ([(splitNl s).2], []) := by
    have := splitNl_line_cons (splitNl s).2 h2 []
    simpa [splitNl] using this
  have hall : splitNl (s ++ ['\n']) = ((splitNl s).1 ++ [(splitNl s).2], []) := by
    rw [splitNl_append s ['\n'], hsp]
  have hsing : keepRecords [(splitNl s).2] = flushBuffer (splitNl s).2 := by
    unfold keepRecords flushBuffer
    by_cases hb : jsTrim (splitNl s).2 = [] <;> simp [hb]
  have hflush : flushBuffer [] = [] := rfl
  unfold recordsOf
  rw [hall, keepRecords_append, hsing, hflush]
  simp

/-- Message role. -/
inductive Role
  | user
  | assistant
deriving DecidableEq

/-- Tool parameters: a JSON object payload carried through the pipeline
verbatim and never inspected by the code under verification; entries
are modelled as key and value text. -/
abbrev Params := List (Str × Str)

/-- The discriminated event union of src/types/events.ts. Records are
parsed permissively (JSON.parse followed by a type cast), so a runtime
event object may lack the session identifier field; the sources guard
every access with a field presence check, which the model reflects by
making the field optional. -/
inductive StreamEvent where
  | systemInit (cwd : Str) (session_id : Option Str) (tools : List Str) (model : Str)
  | message (role : Role) (id : Str) (text : Str) (timestamp : Int)
      (session_id : Option Str)
  | toolCall (id : Str) (messageId : Str) (toolId : Str) (toolName : Str)
      (parameters : Params) (timestamp : Int) (session_id : Option Str)
  | toolResult (id : Str) (messageId : Str) (toolId : Str) (toolName : Str)
      (isError : Bool) (value : Str) (timestamp : Int) (session_id : Option Str)
  | completion (finalText : Str) (numTurns : Int) (durationMs : Int)
      (session_id : Option Str) (timestamp : Int)
  | turnFailed (errorMessage : Str) (errorCode : Option Str)
      (session_id : Option Str) (timestamp : Int)
deriving DecidableEq

/-- The session identifier field of an event, when present. -/
def sidOf : StreamEvent → Option Str
  | .systemInit _ sid _ _ => sid
  | .message _ _ _ _ sid => sid
  | .toolCall _ _ _ _ _ _ sid => sid
  | .toolResult _ _ _ _ _ _ _ sid => sid
  | .completion _ _ _ sid _ => sid
  | .turnFailed _ _ sid _ => sid

/-- The guard used on every session access in the sources: the field is
present and the identifier is truthy, that is, nonempty. -/
def truthySid (e : StreamEvent) : Option Str :=
  match sidOf e with
  | some s => if s = [] then none else some s
  | none => none

/-- The SyntaxError thrown by JSON.parse, identified by its message
text. -/
structure SyntaxErr where
  info : Str
deriving DecidableEq

/-- The fields of the ParseError class of src/errors.ts: message, the
raw offending text, and the optional underlying cause. -/
structure ParseErrData where
  message : Str
  raw : Str
  cause : Option SyntaxErr
deriving DecidableEq

/-- What the try block of parseJsonLines can catch and wrap: the
ParseError thrown by parseJsonLine on a bad record, or a failure of the
underlying byte source read. -/
inductive StreamCause where
  | parse (e : ParseErrData)
  | read (info : Str)
deriving DecidableEq

/-- Closed error model covering the SDK error classes of src/errors.ts
that the verified code paths construct; each constructor carries the
machine readable fields of the corresponding class. -/
inductive JsError where
  | syntaxErr (e : SyntaxErr)
  | parseErr (e : ParseErrData)
  | streamErr (message : Str) (cause : StreamCause)
  | execErr (message : Str) (exitCode : Int) (stderr : Str) (sessionId : Option Str)
  | timeoutErr (timeoutMs : Nat)
deriving DecidableEq

/-- Model of parseJsonLine from src/cli/stream-parser.ts, parameterized
by the behavior of JSON.parse on a line: on success the parsed event is
returned; on failure a ParseError is thrown whose message embeds the
first 100 characters of the line followed by three dots, whose raw
field is the whole line, and whose cause is the thrown syntax error
(always an Error object, so the instanceof branch keeps it). -/
def parseJsonLine (p : Str → Except SyntaxErr StreamEvent) (line : Str) :
    Except ParseErrData StreamEvent :=
  match p line with
  | .ok v => .ok v
  | .error e =>
    .error ⟨str "Failed to parse JSON line: " ++ line.take 100 ++ str "...",
      line, some e⟩

/-- Iterating the records through parseJsonLine until the first
failure: the events yielded so far and the terminating error, if any.
The try block of parseJsonLines catches every error raised inside it,
including the ParseError thrown by parseJsonLine on a bad record, and
rethrows it wrapped as a StreamError with the fixed failure message and
the original error as cause. -/
def emitRecords (p : Str → Except SyntaxErr StreamEvent) :
    List Str → List StreamEvent × Option JsError
  | [] => ([], none)
  | r :: rest =>
    match parseJsonLine p r with
    | .ok v => ((emitRecords p rest).1.cons v, (emitRecords p rest).2)
    | .error e => ([], some (.streamErr (str "Failed to read stream") (.parse e)))

/-- Observable behavior of the parseJsonLines generator on a chunked
byte stream: the records recovered chunk by chunk are parsed in order
until the first failure. Factoring through the record list preserves
the observable outcome of the source generator because parseJsonLine is
pure and the generator stops at the first thrown error. -/
def parseJsonLines (p : Str → Except SyntaxErr StreamEvent)
    (chunks : List (List Nat)) : List StreamEvent × Option JsError :=
  emitRecords p (parseJsonLinesRecords chunks)

/-- An item retained on a turn result (src/types/turn.ts). -/
inductive AnyTurnItem where
  | message (role : Role) (id : Str) (text : Str) (timestamp : Int)
  | toolCall (id : Str) (messageId : Str) (toolId : Str) (toolName : Str)
      (parameters : Params) (timestamp : Int)
  | toolResult (id : Str) (messageId : Str) (toolId : Str) (toolName : Str)
      (isError : Bool) (value : Str) (timestamp : Int)
deriving DecidableEq

/-- The data carried by a TurnResult (src/types/turn.ts); the class
adds only accessors on top of these fields. -/
structure TurnResultData where
  finalResponse : Str
  items : List AnyTurnItem
  sessionId : Str
  durationMs : Int
  numTurns : Int
  isError : Bool
deriving DecidableEq

/-- The session latch performed before the tag dispatch in
buildTurnResultFromEvents: a truthy identifier overwrites the running
one, anything else leaves it unchanged. -/
def latchBuild (st : TurnResultData) (e : StreamEvent) : TurnResultData :=
  match truthySid e with
  | some s => { st with sessionId := s }
  | none => st

/-- One iteration of the event loop of buildTurnResultFromEvents
(src/turn.ts): latch a truthy session identifier, then dispatch on the
event tag. -/
def buildStep (st : TurnResultData) (e : StreamEvent) : TurnResultData :=
  let st1 := latchBuild st e
  match e with
  | .message role id text ts _ =>
    { st1 with items := st1.items ++ [.message role id text ts] }
  | .toolCall id mid tid tname ps ts _ =>
    { st1 with items := st1.items ++ [.toolCall id mid tid tname ps ts] }
  | .toolResult id mid tid tname ie v ts _ =>
    { st1 with items := st1.items ++ [.toolResult id mid tid tname ie v ts] }
  | .completion ft n d _ _ =>
    { st1 with finalResponse := ft, durationMs := d, numTurns := n }
  | .turnFailed msg _ _ _ =>
    { st1 with isError := true, finalResponse := msg }
  | .systemInit _ _ _ _ => st1

/-- Model of buildTurnResultFromEvents from src/turn.ts. -/
def buildTurnResultFromEvents (events : List StreamEvent) : TurnResultData :=
  events.foldl buildStep ⟨[], [], [], 0, 0, false⟩

/-- The summary returned by collectStreamEvents
(src/cli/stream-parser.ts). -/
structure StreamSummary where
  sessionId : Option Str
  finalText : Option Str
  durationMs : Int
  numTurns : Int
  isError : Bool
  errorMessage : Option Str
deriving DecidableEq

/-- The session latch performed on every event by collectStreamEvents. -/
def latchCollect (st : StreamSummary) (e : StreamEvent) : StreamSummary :=
  match truthySid e with
  | some s => { st with sessionId := some s }
  | none => st

/-- One iteration of the event loop of collectStreamEvents. -/
def collectStep (st : StreamSummary) (e : StreamEvent) : StreamSummary :=
  let st1 := latchCollect st e
  match e with
  | .completion ft n d _ _ =>
    { st1 with finalText := some ft, durationMs := d, numTurns := n }
  | .turnFailed msg _ _ _ =>
    { st1 with isError := true, errorMessage := some msg }
  | _ => st1

/-- Model of collectStreamEvents from src/cli/stream-parser.ts. -/
def collectStreamEvents (events : List StreamEvent) : StreamSummary :=
  events.foldl collectStep ⟨none, none, 0, 0, false, none⟩

/-- Model of waitForExit from src/cli/utils.ts. The close listener is
registered first and resolves with the close event code, null coalesced
to zero; the synchronous check that follows resolves immediately with
the exitCode property when the process has already exited, and the
resolveOnce guard keeps whichever value arrives first. A process
terminated by a signal keeps a null exitCode property forever and
closes with a null code. -/
def waitForExit (exitCodeProp : Option Int) (closeCode : Option Int) : Int :=
  match exitCodeProp with
  | some c => c
  | none => closeCode.getD 0

/-- How the iteration of the underlying byte-driven event stream ends
inside createEventIterator: either exhausted after yielding the listed
events, followed by the awaited exit code, or terminated by an error
thrown after the listed events. -/
inductive IterEnd where
  | exhausted (events : List StreamEvent) (exitCode : Int)
  | failed (events : List StreamEvent) (error : JsError)
deriving DecidableEq

deriving instance DecidableEq for Except

/-- Observable outcome of Thread.runStreamed for both observers: the
events delivered to the live consumer, the error thrown to the live
consumer terminating its iteration if any, how the deferred result
promise settles, and the thread session identifier after the run. -/
structure StreamedOutcome where
  delivered : List StreamEvent
  consumerThrow : Option JsError
  result : Except JsError TurnResultData
  threadSessionId : Option Str
deriving DecidableEq

/-- First-wins session latch of createEventIterator: the thread adopts
a truthy session identifier only while it has none. -/
def latchFirst (sid : Option Str) (events : List StreamEvent) : Option Str :=
  events.foldl (fun acc e =>
    match acc with
    | some s => some s
    | none => truthySid e) sid

/-- The ExecutionError message built by createEventIterator. -/
def execMsg (code : Int) : Str :=
  str "Droid process exited with code " ++ (toString code).toList

/-- Model of the iterator body of Thread.runStreamed (src/thread.ts).
Every yielded event is pushed to the collected buffer and delivered to
the consumer. When the stream is exhausted, the exit code is awaited;
a nonzero code with zero collected events rejects the deferred result
with an ExecutionError carrying the code, an empty stderr text and the
thread session identifier, otherwise the deferred result resolves by
folding the collected events. When iteration throws, the catch block
rejects the deferred result with the thrown error (it is an Error
object, so it is passed through unchanged) and the generator returns,
so the consumer sees a normal end of iteration, not a throw. -/
def runStreamed (sid0 : Option Str) (it : IterEnd) : StreamedOutcome :=
  match it with
  | .exhausted events exitCode =>
    if exitCode ≠ 0 ∧ events = [] then
      { delivered := events
        consumerThrow := none
        result := .error (.execErr (execMsg exitCode) exitCode []
          (latchFirst sid0 events))
        threadSessionId := latchFirst sid0 events }
    else
      { delivered := events
        consumerThrow := none
        result := .ok (buildTurnResultFromEvents events)
        threadSessionId := latchFirst sid0 events }
  | .failed events err =>
    { delivered := events
      consumerThrow := none
      result := .error err
      threadSessionId := latchFirst sid0 events }

/-- Result of a blocking spawn (src/cli/process.ts). -/
structure DroidProcessResult where
  stdout : Str
  stderr : Str
  exitCode : Int
deriving DecidableEq

/-- Observable behavior of one blocking child process run: the output
it produced, its exit code, and whether it exited before the armed
timeout fired. -/
structure BlockingRun where
  stdout : Str
  stderr : Str
  exitCode : Int
  exitsBeforeTimeout : Bool
deriving DecidableEq

/-- Model of the timeout policy of spawnDroid (src/cli/process.ts). A
timer is armed only for a configured positive timeout, following the
JavaScript truthiness guard that rules out both an absent and a zero
value; when the timer fires before the process exits, the timedOut flag
is set and the process is killed, and after the three concurrent
collectors join the call throws TimeoutError carrying the configured
timeout, discarding the collected stdout and stderr. The first
component is the settled call outcome, the second records whether the
timer killed the process. -/
def spawnDroid (timeout : Option Nat) (run : BlockingRun) :
    Except JsError DroidProcessResult × Bool :=
  let timerArmed := match timeout with | some t => decide (0 < t) | none => false
  let timedOut := timerArmed && !run.exitsBeforeTimeout
  if timedOut then
    (.error (.timeoutErr (timeout.getD 0)), true)
  else
    (.ok ⟨run.stdout, run.stderr, run.exitCode⟩, false)

/-- The duration carried by an event, when it is a completion. -/
def evDuration? : StreamEvent → Option Int
  | .completion _ _ d _ _ => some d
  | _ => none

/-- The turn count carried by an event, when it is a completion. -/
def evNumTurns? : StreamEvent → Option Int
  | .completion _ n _ _ _ => some n
  | _ => none

/-- The final text carried by a completion event. -/
def evCompletionText? : StreamEvent → Option Str
  | .completion ft _ _ _ _ => some ft
  | _ => none

/-- The text that an event writes into the final response of the
aggregate: the final text of a completion or the failure message of a
failed turn. -/
def evFinal? : StreamEvent → Option Str
  | .completion ft _ _ _ _ => some ft
  | .turnFailed msg _ _ _ => some msg
  | _ => none

/-- The failure message carried by a failed-turn event. -/
def evFailMsg? : StreamEvent → Option Str
  | .turnFailed msg _ _ _ => some msg
  | _ => none

/-- Whether an event is a failed-turn event. -/
def isTurnFailedEv : StreamEvent → Bool
  | .turnFailed _ _ _ _ => true
  | _ => false

theorem latchBuild_sessionId (st : TurnResultData) (e : StreamEvent) :
    (latchBuild st e).sessionId = (truthySid e).getD st.sessionId := by
  unfold latchBuild
  cases truthySid e <;> rfl

theorem latchBuild_durationMs (st : TurnResultData) (e : StreamEvent) :
    (latchBuild st e).durationMs = st.durationMs := by
  unfold latchBuild
  cases truthySid e <;> rfl

theorem latchBuild_numTurns (st : TurnResultData) (e : StreamEvent) :
    (latchBuild st e).numTurns = st.numTurns := by
  unfold latchBuild
  cases truthySid e <;> rfl

theorem latchBuild_finalResponse (st : TurnResultData) (e : StreamEvent) :
    (latchBuild st e).finalResponse = st.finalResponse := by
  unfold latchBuild
  cases truthySid e <;> rfl

theorem latchBuild_isError (st : TurnResultData) (e : StreamEvent) :
    (latchBuild st e).isError = st.isError := by
  unfold latchBuild
  cases truthySid e <;> rfl

theorem latchCollect_sessionId (st : StreamSummary) (e : StreamEvent) :
    (latchCollect st e).sessionId = (truthySid e).or st.sessionId := by
  unfold latchCollect
  cases truthySid e <;> rfl

theorem latchCollect_durationMs (st : StreamSummary) (e : StreamEvent) :
    (latchCollect st e).durationMs = st.durationMs := by
  unfold latchCollect
  cases truthySid e <;> rfl

theorem latchCollect_numTurns (st : StreamSummary) (e : StreamEvent) :
    (latchCollect st e).numTurns = st.numTurns := by
  unfold latchCollect
  cases truthySid e <;> rfl

theorem latchCollect_finalText (st : StreamSummary) (e : StreamEvent) :
    (latchCollect st e).finalText = st.finalText := by
  unfold latchCollect
  cases truthySid e <;> rfl

theorem latchCollect_errorMessage (st : StreamSummary) (e : StreamEvent) :
    (latchCollect st e).errorMessage = st.errorMessage := by
  unfold latchCollect
  cases truthySid e <;> rfl

theorem latchCollect_isError (st : StreamSummary) (e : StreamEvent) :
    (latchCollect st e).isError = st.isError := by
  unfold latchCollect
  cases truthySid e <;> rfl

theorem buildStep_sessionId (st : TurnResultData) (e : StreamEvent) :
    (buildStep st e).sessionId = (truthySid e).getD st.sessionId := by
  cases e <;> simp [buildStep, latchBuild_sessionId]

theorem buildStep_durationMs (st : TurnResultData) (e : StreamEvent) :
    (buildStep st e).durationMs = (evDuration? e).getD st.durationMs := by
  cases e <;> simp [buildStep, evDuration?, latchBuild_durationMs]

theorem buildStep_numTurns (st : TurnResultData) (e : StreamEvent) :
    (buildStep st e).numTurns = (evNumTurns? e).getD st.numTurns := by
  cases e <;> simp [buildStep, evNumTurns?, latchBuild_numTurns]

theorem buildStep_finalResponse (st : TurnResultData) (e : StreamEvent) :
    (buildStep st e).finalResponse = (evFinal? e).getD st.finalResponse := by
  cases e <;> simp [buildStep, evFinal?, latchBuild_finalResponse]

theorem buildStep_isError (st : TurnResultData) (e : StreamEvent) :
    (buildStep st e).isError = (st.isError || isTurnFailedEv e) := by
  cases e <;> simp [buildStep, isTurnFailedEv, latchBuild_isError]

theorem collectStep_sessionId (st : StreamSummary) (e : StreamEvent) :
    (collectStep st e).sessionId = (truthySid e).or st.sessionId := by
  cases e <;> simp [collectStep, latchCollect_sessionId]

theorem collectStep_durationMs (st : StreamSummary) (e : StreamEvent) :
    (collectStep st e).durationMs = (evDuration? e).getD st.durationMs := by
  cases e <;> simp [collectStep, evDuration?, latchCollect_durationMs]

theorem collectStep_numTurns (st : StreamSummary) (e : StreamEvent) :
    (collectStep st e).numTurns = (evNumTurns? e).getD st.numTurns := by
  cases e <;> simp [collectStep, evNumTurns?, latchCollect_numTurns]

theorem collectStep_finalText (st : StreamSummary) (e : StreamEvent) :
    (collectStep st e).finalText = (evCompletionText? e).or st.finalText := by
  cases e <;> simp [collectStep, evCompletionText?, latchCollect_finalText, Option.or]

theorem collectStep_errorMessage (st : StreamSummary) (e : StreamEvent) :
    (collectStep st e).errorMessage = (evFailMsg? e).or st.errorMessage := by
  cases e <;> simp [collectStep, evFailMsg?, latchCollect_errorMessage, Option.or]

theorem collectStep_isError (st : StreamSummary) (e : StreamEvent) :
    (collectStep st e).isError = (st.isError || isTurnFailedEv e) := by
  cases e <;> simp [collectStep, isTurnFailedEv, latchCollect_isError]

theorem getLastD_cons {α : Type} : ∀ (s : α) (l : List α) (d : α),
    ((s :: l).getLast?).getD d = (l.getLast?).getD s
  | _, [], _ => rfl
  | s, x :: l, d => by
    rw [List.getLast?_cons_cons, getLastD_cons x l d, getLastD_cons x l s]

theorem getLastOr_cons {α : Type} : ∀ (s : α) (l : List α) (d : Option α),
    ((s :: l).getLast?).or d = (l.getLast?).or (some s)
  | _, [], _ => rfl
  | s, x :: l, d => by
    rw [List.getLast?_cons_cons, getLastOr_cons x l d, getLastOr_cons x l (some s)]

/-- The last truthy session identifier of an event sequence. -/
def lastTruthy (events : List StreamEvent) : Option Str :=
  (events.filterMap truthySid).getLast?

theorem build_foldl_sessionId : ∀ (evs : List StreamEvent) (st : TurnResultData),
    (List.foldl buildStep st evs).sessionId = (lastTruthy evs).getD st.sessionId
  | [], st => by simp [lastTruthy]
  | e :: evs, st => by
    have ih := build_foldl_sessionId evs (buildStep st e)
    rw [List.foldl_cons, ih, buildStep_sessionId]
    cases h : truthySid e with
    | none => simp [lastTruthy, List.filterMap_cons, h]
    | some s => simp [lastTruthy, List.filterMap_cons, h, getLastD_cons]

theorem collect_foldl_sessionId : ∀ (evs : List StreamEvent) (st : StreamSummary),
    (List.foldl collectStep st evs).sessionId = (lastTruthy evs).or st.sessionId
  | [], st => by simp [lastTruthy, Option.or]
  | e :: evs, st => by
    have ih := collect_foldl_sessionId evs (collectStep st e)
    rw [List.foldl_cons, ih, collectStep_sessionId]
    cases h : truthySid e with
    | none => simp [lastTruthy, List.filterMap_cons, h, Option.or]
    | some s => simp [lastTruthy, List.filterMap_cons, h, getLastOr_cons]

theorem build_isError_mono : ∀ (evs : List StreamEvent) (st : TurnResultData),
    st.isError = true → (List.foldl buildStep st evs).isError = true
  | [], _, h => h
  | e :: evs, st, h =>
    build_isError_mono evs _ (by rw [buildStep_isError, h]; rfl)

theorem collect_build_fold_agree : ∀ (evs : List StreamEvent)
    (stC : StreamSummary) (stB : TurnResultData),
    stC.durationMs = stB.durationMs → stC.numTurns = stB.numTurns →
    stC.isError = stB.isError →
    (List.foldl collectStep stC evs).durationMs = (List.foldl buildStep stB evs).durationMs ∧
    (List.foldl collectStep stC evs).numTurns = (List.foldl buildStep stB evs).numTurns ∧
    (List.foldl collectStep stC evs).isError = (List.foldl buildStep stB evs).isError
  | [], _, _, h1, h2, h3 => ⟨h1, h2, h3⟩
  | e :: evs, stC, stB, h1, h2, h3 => by
    rw [List.foldl_cons, List.foldl_cons]
    exact collect_build_fold_agree evs _ _
      (by rw [collectStep_durationMs, buildStep_durationMs, h1])
      (by rw [collectStep_numTurns, buildStep_numTurns, h2])
      (by rw [collectStep_isError, buildStep_isError, h3])

/-- ASCII text as a byte stream. -/
def asciiBytes (s : String) : List Nat := s.toList.map Char.toNat

/-- A sample assistant message event carrying a session identifier. -/
def sampleEventOne : StreamEvent :=
  .message .assistant (str "m1") (str "one") 0 (some (str "s1"))

/-- A second sample assistant message event. -/
def sampleEventTwo : StreamEvent :=
  .message .assistant (str "m2") (str "two") 1 (some (str "s1"))

/-- A sample event without a session identifier. -/
def sampleNoSidEvent : StreamEvent := .message .user (str "m0") (str "hi") 0 none

/-- A sample session initialization event. -/
def sampleInitEvent : StreamEvent :=
  .systemInit (str "/w") (some (str "s1")) [] (str "gpt")

/-- A concrete stand-in for JSON.parse used to evaluate the pipeline:
the lines ok1 and ok2 parse to the sample events, anything else throws
a syntax error. -/
def sampleParse (line : Str) : Except SyntaxErr StreamEvent :=
  if line = str "ok1" then .ok sampleEventOne
  else if line = str "ok2" then .ok sampleEventTwo
  else .error ⟨str "Unexpected token"⟩

/-- A sample error as thrown by the parseJsonLines generator. -/
def sampleStreamError : JsError :=
  .streamErr (str "Failed to read stream") (.read (str "read failed"))

/-- Claim C1, as stated, is false on the code: when iterating the byte
sequence throws, createEventIterator catches the error, so the live
consumer sees a normal end of iteration rather than a thrown error,
even though the deferred result is rejected with that error. -/
theorem runStreamed_failure_not_thrown_to_consumer :
    (runStreamed none (.failed [] sampleStreamError)).result =
      .error sampleStreamError ∧
    (runStreamed none (.failed [] sampleStreamError)).consumerThrow ≠
      some sampleStreamError := by
  refine ⟨rfl, ?_⟩
  intro h
  exact Option.noConfusion h

/-- Claim C1, amended: for every streaming run in which iterating the
byte sequence raises an exception, the deferred TurnResult promise is
rejected with that error and the live consumer receives every event
yielded before the failure, but its iteration then terminates normally;
no error is thrown to the live consumer. -/
theorem runStreamed_failure_rejects_result_only (sid0 : Option Str)
    (events : List StreamEvent) (e : JsError) :
    (runStreamed sid0 (.failed events e)).result = .error e ∧
    (runStreamed sid0 (.failed events e)).consumerThrow = none ∧
    (runStreamed sid0 (.failed events e)).delivered = events :=
  ⟨rfl, rfl, rfl⟩

/-- Claim C2: on a stream of two valid records followed by a line that
does not parse, the sequence yields the two parsed records and then
terminates; however the terminating error is not the ParseError itself
but a StreamError with the fixed read-failure message whose cause is
the ParseError carrying the truncated preview and the syntax cause, the
catch block of parseJsonLines wrapping every error thrown inside it. -/
theorem parseJsonLines_wraps_parse_failure :
    parseJsonLines sampleParse [asciiBytes "ok1\nok2\nnot valid json"] =
      ([sampleEventOne, sampleEventTwo],
       some (.streamErr (str "Failed to read stream")
         (.parse ⟨str "Failed to parse JSON line: not valid json...",
           str "not valid json", some ⟨str "Unexpected token"⟩⟩))) := by
  decide

/-- Claim C4: for a byte stream that decodes to well formed
newline-delimited records, with or without a trailing newline, decoding
it delivered in arbitrary chunks yields exactly those records in order,
identical to decoding the stream delivered as a single chunk. -/
theorem parseJsonLines_chunk_invariance (cs : List (List Nat)) (rs : List Str)
    (hgood : ∀ r ∈ rs, goodRecord r)
    (htext : (decodeLoop cs.flatten).1 = joinNl rs ∨
      (decodeLoop cs.flatten).1 = joinNl rs ++ ['\n']) :
    parseJsonLinesRecords cs = rs ∧
    parseJsonLinesRecords cs = parseJsonLinesRecords [cs.flatten] := by
  have h1 := parseJsonLinesRecords_eq cs
  have h2 := parseJsonLinesRecords_eq [cs.flatten]
  have hflat : ([cs.flatten] : List (List Nat)).flatten = cs.flatten := by simp
  constructor
  · rw [h1]
    rcases htext with h | h <;> rw [h]
    · exact recordsOf_joinNl rs hgood
    · rw [recordsOf_trailing_newline]
      exact recordsOf_joinNl rs hgood
  · rw [h1, h2, hflat]

/-- Witness for claim C4 at a concrete input: the bytes of a two-record
stream without trailing newline, whose first record is a two-byte UTF-8
character, delivered one byte per chunk, with the chunking splitting
the character across chunks. -/
theorem parseJsonLines_chunk_invariance_witness :
    parseJsonLinesRecords [[0xc3], [0xa9], [10], [98]] =
      [[Char.ofNat 0xe9], ['b']] ∧
    parseJsonLinesRecords [[0xc3], [0xa9], [10], [98]] =
      parseJsonLinesRecords [[0xc3, 0xa9, 10, 98]] :=
  parseJsonLines_chunk_invariance [[0xc3], [0xa9], [10], [98]]
    [[Char.ofNat 0xe9], ['b']] (by decide) (by decide)

/-- Claim C3: when the streaming byte sequence is exhausted without
error, a nonzero exit code with zero observed events rejects the
deferred result with an ExecutionError carrying that exit code, an
empty stderr text and the current session identifier; an exit code of
zero, or a nonzero exit code with at least one observed event, resolves
the deferred result by folding the buffered events. -/
theorem runStreamed_exit_reconciliation (sid0 : Option Str)
    (events : List StreamEvent) (code : Int) :
    (code ≠ 0 →
      (runStreamed sid0 (.exhausted [] code)).result =
        .error (.execErr (execMsg code) code [] sid0)) ∧
    (code = 0 →
      (runStreamed sid0 (.exhausted events code)).result =
        .ok (buildTurnResultFromEvents events)) ∧
    (events ≠ [] →
      (runStreamed sid0 (.exhausted events code)).result =
        .ok (buildTurnResultFromEvents events)) := by
  refine ⟨fun h => ?_, fun h => ?_, fun h => ?_⟩
  · show (runStreamed sid0 (.exhausted [] code)).result = _
    simp only [runStreamed]
    rw [if_pos ⟨h, trivial⟩]
    rfl
  · simp only [runStreamed]
    rw [if_neg (fun hc => hc.1 h)]
  · simp only [runStreamed]
    rw [if_neg (fun hc => h hc.2)]

/-- Witness for claim C3: a process exiting with code 2 and no events
rejects with the ExecutionError, and one exiting with code 3 after one
event resolves with the folded result. -/
theorem runStreamed_exit_reconciliation_witness :
    (runStreamed (some (str "sess")) (.exhausted [] 2)).result =
      .error (.execErr (execMsg 2) 2 [] (some (str "sess"))) ∧
    (runStreamed none (.exhausted [sampleEventOne] 3)).result =
      .ok (buildTurnResultFromEvents [sampleEventOne]) :=
  ⟨(runStreamed_exit_reconciliation (some (str "sess")) [] 2).1 (by decide),
   (runStreamed_exit_reconciliation none [sampleEventOne] 3).2.2 (by decide)⟩

/-- Claim C9: a child process whose observed exit code is null, as
after a termination by signal, makes waitForExit resolve with zero, so
a signal-killed streaming process with zero observed events resolves
the deferred result successfully instead of rejecting. -/
theorem waitForExit_null_resolves_zero (sid0 : Option Str) :
    waitForExit none none = 0 ∧
    (runStreamed sid0 (.exhausted [] (waitForExit none none))).result =
      .ok (buildTurnResultFromEvents []) := by
  refine ⟨rfl, ?_⟩
  simp only [runStreamed, waitForExit, Option.getD_none]
  rw [if_neg (fun hc => hc.1 rfl)]

/-- Claim C8: in a blocking run with a positive configured timeout, if
the process does not exit before the timeout fires, the timer kills the
process and the call fails with a TimeoutError carrying the configured
timeout; the collected stdout and stderr are discarded, the outcome
being independent of them. -/
theorem spawnDroid_timeout_discards_output (t : Nat) (run : BlockingRun)
    (hp : 0 < t) (hexit : run.exitsBeforeTimeout = false) :
    spawnDroid (some t) run = (.error (.timeoutErr t), true) := by
  unfold spawnDroid
  rw [hexit]
  simp [hp]

/-- Witness for claim C8: a run with collected partial output that does
not exit within a five-millisecond timeout. -/
theorem spawnDroid_timeout_discards_output_witness :
    spawnDroid (some 5) ⟨str "partial out", str "partial err", 0, false⟩ =
      (.error (.timeoutErr 5), true) :=
  spawnDroid_timeout_discards_output 5 ⟨str "partial out", str "partial err", 0, false⟩
    (by decide) rfl

/-- Claim C7: folding the empty event sequence yields the empty session
identifier, an empty final response, no error, zero turns, zero
duration and no items. -/
theorem build_empty_events :
    (buildTurnResultFromEvents []).sessionId = [] ∧
    (buildTurnResultFromEvents []).finalResponse = [] ∧
    (buildTurnResultFromEvents []).isError = false ∧
    (buildTurnResultFromEvents []).numTurns = 0 ∧
    (buildTurnResultFromEvents []).durationMs = 0 ∧
    (buildTurnResultFromEvents []).items = [] :=
  ⟨rfl, rfl, rfl, rfl, rfl, rfl⟩

/-- Claim C5: the folded result carries the latest truthy session
identifier of the sequence; an event with an empty or absent identifier
never overwrites it, and when only the first event carries an
identifier the result still carries it. -/
theorem build_sessionId_latching (events : List StreamEvent) :
    (buildTurnResultFromEvents events).sessionId = (lastTruthy events).getD [] ∧
    (∀ e, truthySid e = none →
      (buildTurnResultFromEvents (events ++ [e])).sessionId =
        (buildTurnResultFromEvents events).sessionId) ∧
    (∀ e s, truthySid e = some s → (∀ x ∈ events, truthySid x = none) →
      (buildTurnResultFromEvents (e :: events)).sessionId = s) := by
  refine ⟨build_foldl_sessionId events _, fun e he => ?_, fun e s hs hall => ?_⟩
  · unfold buildTurnResultFromEvents
    rw [List.foldl_append, List.foldl_cons, List.foldl_nil, buildStep_sessionId, he]
    rfl
  · unfold buildTurnResultFromEvents
    rw [List.foldl_cons, build_foldl_sessionId events _]
    have hfm : events.filterMap truthySid = [] := List.filterMap_eq_nil_iff.mpr hall
    simp [lastTruthy, hfm, buildStep_sessionId, hs]

/-- Witness for claim C5: only the first of two events carries a
session identifier and the folded result keeps it. -/
theorem build_sessionId_latching_witness :
    (buildTurnResultFromEvents [sampleInitEvent, sampleNoSidEvent]).sessionId =
      str "s1" :=
  (build_sessionId_latching [sampleNoSidEvent]).2.2 sampleInitEvent (str "s1")
    (by decide) (by decide)

/-- Claim C6: any sequence containing a failed-turn event folds to an
error result; when the failed-turn event is last, the final response is
its failure message while the turn count and duration set by earlier
events are kept; a completion event arriving last overwrites final
text, turn count and duration no matter what preceded it, so the last
completion wins. -/
theorem build_turnFailed_aggregation (l1 l2 : List StreamEvent) (msg : Str)
    (code : Option Str) (sid : Option Str) (ts : Int)
    (ft : Str) (n d : Int) (sid2 : Option Str) (ts2 : Int) :
    (buildTurnResultFromEvents
      (l1 ++ .turnFailed msg code sid ts :: l2)).isError = true ∧
    ((buildTurnResultFromEvents (l1 ++ [.turnFailed msg code sid ts])).finalResponse = msg ∧
     (buildTurnResultFromEvents (l1 ++ [.turnFailed msg code sid ts])).numTurns =
       (buildTurnResultFromEvents l1).numTurns ∧
     (buildTurnResultFromEvents (l1 ++ [.turnFailed msg code sid ts])).durationMs =
       (buildTurnResultFromEvents l1).durationMs) ∧
    ((buildTurnResultFromEvents (l1 ++ [.completion ft n d sid2 ts2])).finalResponse = ft ∧
     (buildTurnResultFromEvents (l1 ++ [.completion ft n d sid2 ts2])).numTurns = n ∧
     (buildTurnResultFromEvents (l1 ++ [.completion ft n d sid2 ts2])).durationMs = d) := by
  refine ⟨?_, ⟨?_, ?_, ?_⟩, ⟨?_, ?_, ?_⟩⟩
  · unfold buildTurnResultFromEvents
    rw [List.foldl_append, List.foldl_cons]
    apply build_isError_mono
    rw [buildStep_isError]
    simp [isTurnFailedEv]
  · unfold buildTurnResultFromEvents
    rw [List.foldl_append, List.foldl_cons, List.foldl_nil, buildStep_finalResponse]
    rfl
  · unfold buildTurnResultFromEvents
    rw [List.foldl_append, List.foldl_cons, List.foldl_nil, buildStep_numTurns]
    rfl
  · unfold buildTurnResultFromEvents
    rw [List.foldl_append, List.foldl_cons, List.foldl_nil, buildStep_durationMs]
    rfl
  · unfold buildTurnResultFromEvents
    rw [List.foldl_append, List.foldl_cons, List.foldl_nil, buildStep_finalResponse]
    rfl
  · unfold buildTurnResultFromEvents
    rw [List.foldl_append, List.foldl_cons, List.foldl_nil, buildStep_numTurns]
    rfl
  · unfold buildTurnResultFromEvents
    rw [List.foldl_append, List.foldl_cons, List.foldl_nil, buildStep_durationMs]
    rfl

/-- Claim C10: the summary of collectStreamEvents and the result of
buildTurnResultFromEvents agree on duration, turn count and the error
flag for every event sequence, and agree on the session identifier
whenever some event carries a truthy one; they differ on a failed turn,
which collectStreamEvents records in a separate errorMessage field
leaving its final text untouched, while buildTurnResultFromEvents
overwrites the final response with the failure message. -/
theorem collect_build_agreement (events : List StreamEvent) :
    (collectStreamEvents events).durationMs =
      (buildTurnResultFromEvents events).durationMs ∧
    (collectStreamEvents events).numTurns =
      (buildTurnResultFromEvents events).numTurns ∧
    (collectStreamEvents events).isError =
      (buildTurnResultFromEvents events).isError ∧
    ((∃ x ∈ events, truthySid x ≠ none) →
      (collectStreamEvents events).sessionId =
        some ((buildTurnResultFromEvents events).sessionId)) ∧
    (∀ msg code sid ts,
      (collectStreamEvents
        (events ++ [.turnFailed msg code sid ts])).errorMessage = some msg ∧
      (collectStreamEvents (events ++ [.turnFailed msg code sid ts])).finalText =
        (collectStreamEvents events).finalText ∧
      (buildTurnResultFromEvents
        (events ++ [.turnFailed msg code sid ts])).finalResponse = msg) := by
  have hagree := collect_build_fold_agree events
    ⟨none, none, 0, 0, false, none⟩ ⟨[], [], [], 0, 0, false⟩ rfl rfl rfl
  refine ⟨hagree.1, hagree.2.1, hagree.2.2, ?_, fun msg code sid ts => ⟨?_, ?_, ?_⟩⟩
  · rintro ⟨x, hx, hne⟩
    obtain ⟨s0, hs0⟩ := Option.ne_none_iff_exists'.mp hne
    have hmem : s0 ∈ events.filterMap truthySid :=
      List.mem_filterMap.mpr ⟨x, hx, hs0⟩
    have hne2 : events.filterMap truthySid ≠ [] := List.ne_nil_of_mem hmem
    obtain ⟨s, hs⟩ : ∃ s, lastTruthy events = some s := by
      cases hlt : lastTruthy events with
      | none =>
        exact absurd (List.getLast?_eq_none_iff.mp hlt) hne2
      | some s => exact ⟨s, rfl⟩
    show (collectStreamEvents events).sessionId = _
    unfold collectStreamEvents buildTurnResultFromEvents
    rw [collect_foldl_sessionId, build_foldl_sessionId, hs]
    rfl
  · unfold collectStreamEvents
    rw [List.foldl_append, List.foldl_cons, List.foldl_nil, collectStep_errorMessage]
    rfl
  · unfold collectStreamEvents
    rw [List.foldl_append, List.foldl_cons, List.foldl_nil, collectStep_finalText]
    rfl
  · unfold buildTurnResultFromEvents
    rw [List.foldl_append, List.foldl_cons, List.foldl_nil, buildStep_finalResponse]
    rfl

/-- Witness for claim C10 at a concrete sequence containing an event
with a truthy session identifier. -/
theorem collect_build_agreement_witness :
    (collectStreamEvents [sampleInitEvent]).sessionId =
      some ((buildTurnResultFromEvents [sampleInitEvent]).sessionId) :=
  (collect_build_agreement [sampleInitEvent]).2.2.2.1
    ⟨sampleInitEvent, by decide, by decide⟩
